import Mathlib

set_option maxRecDepth 8192

/-!
Verification of the image-to-embedded-asset pipeline:
RGB565 pixel codec, key-color transparency policy, dense full-frame
encoder, sprite run-length encoder (make_spans.py, image_converter.py)
and the zlib compression stage (pack_assets.py), shallowly embedded
over Nat byte values and lists.
-/

/-- An 8-bit-per-channel RGBA pixel, as produced by the image loader.
Channel values are Nats; well-formed pixels have all channels below 256. -/
structure Pixel where
  r : Nat
  g : Nat
  b : Nat
  a : Nat
deriving DecidableEq

/-- Default pixel used for (never-taken) out-of-range list reads. -/
def defPix : Pixel := ⟨0, 0, 0, 0⟩

/-- LIME_KEY = (0x8B, 0xE3, 0x08), the reserved transparent key color. -/
def LIME_KEY : Nat × Nat × Nat := (0x8B, 0xE3, 0x08)

/-- Transparency test of the sprite encoder in make_spans.py main:
a pixel is skipped iff its RGB triple equals the key color or its
alpha is zero («(r,g,b) == key_rgb or a == 0»). -/
def isTransparent (p : Pixel) : Bool :=
  (decide ((p.r, p.g, p.b) = LIME_KEY)) || (p.a == 0)

/-- RGB565 value as computed by make_spans.py rgb888_to_rgb565_be:
((r & 0xF8) << 8) | ((g & 0xFC) << 3) | (b >> 3). -/
def rgb565v (r g b : Nat) : Nat :=
  ((r &&& 0xF8) <<< 8) ||| ((g &&& 0xFC) <<< 3) ||| (b >>> 3)

/-- RGB565 value as computed by image_converter.py to_rgb565_be_bytes:
((r >> 3) << 11) | ((g >> 2) << 5) | (b >> 3). -/
def rgb565v_shift (r g b : Nat) : Nat :=
  ((r >>> 3) <<< 11) ||| ((g >>> 2) <<< 5) ||| (b >>> 3)

/-- Big-endian byte pair of a 16-bit value (struct.pack of format >H for
an in-range argument). -/
def be16u (v : Nat) : List Nat := [v / 256, v % 256]

/-- Model of struct.pack with format >H: big-endian 2-byte serialization,
failing (struct.error) when the value does not fit in 16 bits. -/
def pack16 (v : Nat) : Option (List Nat) :=
  if v < 65536 then some (be16u v) else none

/-- make_spans.py rgb888_to_rgb565_be: struct.pack of >H applied to the
mask-based RGB565 value. -/
def rgb888_to_rgb565_be (r g b : Nat) : Option (List Nat) :=
  pack16 (rgb565v r g b)

/-- The key color's RGB565 value (key565 in make_spans.py main). -/
def key565 : Nat := rgb565v 0x8B 0xE3 0x08

/-- Byte output of one pixel in the make_spans.py encoders. -/
def pixBytes (p : Pixel) : Option (List Nat) :=
  rgb888_to_rgb565_be p.r p.g p.b

/-- Sequence a list of fallible byte chunks: the concatenation if every
chunk is produced, failure as soon as one chunk fails. -/
def seqBytes : List (Option (List Nat)) → Option (List Nat)
  | [] => some []
  | o :: os =>
    match o, seqBytes os with
    | some b, some bs => some (b ++ bs)
    | _, _ => none

/-- An image: width plus the pixel rows (top to bottom), as exposed by
the loaded Pillow image. The height is the number of rows. -/
structure Image where
  w : Nat
  rows : List (List Pixel)
deriving DecidableEq

/-- Fuelled run scanner for one row, mirroring the nested while loops of
make_spans.py main: skip transparent pixels, then emit a maximal span of
non-transparent pixels as one (start, length) run and continue after it.
The fuel only serves structural recursion; one list element is consumed
per step, so fuel equal to the list length is always enough. -/
def rowRunsF : Nat → List Pixel → Nat → List (Nat × Nat)
  | 0, _, _ => []
  | _ + 1, [], _ => []
  | fuel + 1, p :: rest, x =>
    if isTransparent p then rowRunsF fuel rest (x + 1)
    else
      (x, (List.takeWhile (fun q => !(isTransparent q)) (p :: rest)).length) ::
        rowRunsF fuel (List.dropWhile (fun q => !(isTransparent q)) (p :: rest))
          (x + (List.takeWhile (fun q => !(isTransparent q)) (p :: rest)).length)

/-- The (start, length) runs of one row (row_runs in make_spans.py main). -/
def rowRuns (row : List Pixel) (x : Nat) : List (Nat × Nat) :=
  rowRunsF row.length row x

/-- Byte payload of one run: the RGB565 bytes of pixels sx, ..., sx+ln-1
(«for px in range(sx, sx+ln)»). -/
def runPayload (row : List Pixel) (sx ln : Nat) : Option (List Nat) :=
  seqBytes ((List.range ln).map (fun i => pixBytes (row.getD (sx + i) defPix)))

/-- Byte encoding of one run: packed start, packed length, pixel payload. -/
def encodeRun (row : List Pixel) (run : Nat × Nat) : Option (List Nat) :=
  match pack16 run.1, pack16 run.2, runPayload row run.1 run.2 with
  | some s, some l, some pl => some (s ++ l ++ pl)
  | _, _, _ => none

/-- Byte encoding of one row: packed run count, then each run's encoding. -/
def encodeRow (row : List Pixel) : Option (List Nat) :=
  match pack16 (rowRuns row 0).length, seqBytes ((rowRuns row 0).map (encodeRun row)) with
  | some cnt, some body => some (cnt ++ body)
  | _, _ => none

/-- Total count of pixels kept inside runs (run_pixels_total). -/
def spritePixelsTotal (img : Image) : Nat :=
  (img.rows.map (fun row => ((rowRuns row 0).map (fun r => r.2)).sum)).sum

/-- The sprite run-length encoder of make_spans.py main: 16-bit big-endian
header (width, height, key565) followed by each row's encoding, together
with the opaque-pixel diagnostic count. Fails (struct.error) when some
16-bit field does not fit. -/
def spriteEncode (img : Image) : Option (List Nat × Nat) :=
  match pack16 img.w, pack16 img.rows.length, pack16 key565,
      seqBytes (img.rows.map encodeRow) with
  | some bw, some bh, some bk, some body =>
    some (bw ++ bh ++ bk ++ body, spritePixelsTotal img)
  | _, _, _, _ => none

/-- The dense full-frame encoder of make_spans.py main (full_raw): for
each row top to bottom, for each pixel left to right, the RGB565 bytes. -/
def full_raw (img : Image) : Option (List Nat) :=
  seqBytes (img.rows.map (fun row => seqBytes (row.map pixBytes)))

/-- image_converter.py to_rgb565_be_bytes: the same dense row-major
encoding, with the shift-based RGB565 expression. -/
def to_rgb565_be_bytes (img : Image) : Option (List Nat) :=
  seqBytes (img.rows.map (fun row =>
    seqBytes (row.map (fun p => pack16 (rgb565v_shift p.r p.g p.b)))))

/-- The ideal dense buffer: per-pixel big-endian RGB565 byte pairs,
row-major, as one total concatenation. -/
def denseBytes (img : Image) : List Nat :=
  (img.rows.map (fun row =>
    (row.map (fun p => be16u (rgb565v p.r p.g p.b))).flatten)).flatten

/-- ASCII lower-casing of one character (for the IGNORECASE regex flag). -/
def lowerCh (c : Char) : Char :=
  if 'A' ≤ c ∧ c ≤ 'Z' then Char.ofNat (c.toNat + 32) else c

/-- ASCII decimal digit test (the regex class of backslash-d). -/
def isDigitCh (c : Char) : Bool := '0' ≤ c && c ≤ '9'

/-- Decimal value of a digit string (int applied to a regex group). -/
def digitsVal (ds : List Char) : Nat :=
  ds.foldl (fun acc c => acc * 10 + (c.toNat - 48)) 0

/-- Attempt to match the whole anchored pattern _(digits)x(digits)_rgb565_be.raw,
case-insensitively, starting at the head of the character list and
consuming it entirely (the trailing anchor of RAW_RE). -/
def matchRawRE (s : List Char) : Option (Nat × Nat) :=
  match s with
  | '_' :: rest =>
    let d1 := rest.takeWhile isDigitCh
    if d1.length = 0 then none
    else
      match rest.drop d1.length with
      | c :: rest2 =>
        if lowerCh c = 'x' then
          let d2 := rest2.takeWhile isDigitCh
          if d2.length = 0 then none
          else if (rest2.drop d2.length).map lowerCh = "_rgb565_be.raw".data then
            some (digitsVal d1, digitsVal d2)
          else none
        else none
      | [] => none
  | _ => none

/-- pack_assets.py size_from_name: search the file name left to right for
the first position where RAW_RE matches through to the end of the name,
returning the two dimension groups as Nats. -/
def size_from_name : List Char → Option (Nat × Nat)
  | [] => none
  | c :: rest =>
    match matchRawRE (c :: rest) with
    | some wh => some wh
    | none => size_from_name rest

/-- Outcome of pack_assets.py compress_one for one raw file. -/
inductive CompressResult where
  /-- Name does not match RAW_RE: «skip: ... (name must end with ...)». -/
  | skippedBadName : CompressResult
  /-- Byte length disagrees with the name-derived size: «ERROR: ... size ...». -/
  | sizeError : CompressResult
  /-- Compressed output already exists and overwrite not set: «skip: ... already exists». -/
  | skipExists : CompressResult
  /-- Output written with the given compressed bytes: «ok: ...». -/
  | wrote (out : List Nat) : CompressResult
deriving DecidableEq

/-- pack_assets.py compress_one, parameterized by the external compressor
zc (zlib.compress). Inputs: the file name, the bytes read from it,
whether the .zlib output already exists, and the level/force/overwrite
options. Returns the outcome plus the Bool the function returns. -/
def compress_one (zc : List Nat → Int → List Nat) (name : List Char)
    (data : List Nat) (outExists : Bool) (level : Int)
    (force overwrite : Bool) : CompressResult × Bool :=
  match size_from_name name with
  | none => (.skippedBadName, false)
  | some (w, h) =>
    if data.length != w * h * 2 && !force then (.sizeError, false)
    else if outExists && !overwrite then (.skipExists, true)
    else (.wrote (zc data level), true)

/-- One discovered raw file: its name, the bytes it holds, and whether
its compressed counterpart already exists. -/
structure RawFile where
  name : List Char
  data : List Nat
  outExists : Bool
deriving DecidableEq

/-- Outcome of pack_assets.py main. -/
inductive MainResult where
  /-- Compression level out of 0..9: «compression level must be 0..9», exit 2. -/
  | configError : MainResult
  /-- No raw files found: exit 1. -/
  | noFiles : MainResult
  /-- Every file processed through compress_one, in order. -/
  | batch (results : List (CompressResult × Bool)) : MainResult
deriving DecidableEq

/-- pack_assets.py main over an already-discovered file list: the level
check runs first, before any file is read or written; then each file goes
through compress_one. -/
def pack_main (zc : List Nat → Int → List Nat) (level : Int)
    (force overwrite : Bool) (files : List RawFile) : MainResult :=
  if level < 0 ∨ 9 < level then .configError
  else if files.length = 0 then .noFiles
  else .batch (files.map (fun f => compress_one zc f.name f.data f.outExists level force overwrite))

/-- Process exit status of a main outcome: sys.exit(2) on the level
check, sys.exit(1) when no files, else 0 iff ok equals the file count. -/
def exitCode : MainResult → Nat
  | .configError => 2
  | .noFiles => 1
  | .batch results => if results.all (fun r => r.2) then 0 else 1

/-- The compressed outputs written by one outcome. -/
def writtenOutputs : MainResult → List (List Nat)
  | .batch results =>
    (results.map (fun r =>
      match r.1 with
      | .wrote out => [out]
      | _ => [])).flatten
  | _ => []

/-! ### Bitwise helper lemmas -/

/-- Bitwise or with a left operand shifted past the right operand is
plain addition. -/
theorem shiftLeft_lor_eq_add (x y k : Nat) (hy : y < 2 ^ k) :
    (x <<< k) ||| y = x * 2 ^ k + y := by
  apply Nat.eq_of_testBit_eq
  intro i
  rcases Nat.lt_or_ge i k with hik | hik
  · have h1 : (x <<< k).testBit i = false := by
      simp [Nat.testBit_shiftLeft, Nat.not_le_of_lt hik]
    have hpow : 2 ^ k = 2 ^ i * 2 ^ (k - i) := by
      rw [← pow_add]; congr 1; omega
    have h2 : (x * 2 ^ k + y).testBit i = y.testBit i := by
      have hx : x * 2 ^ k = 2 ^ i * (2 ^ (k - i) * x) := by rw [hpow]; ring
      rw [hx, Nat.testBit_to_div_mod, Nat.testBit_to_div_mod,
        Nat.mul_add_div (Nat.two_pow_pos i)]
      have hev : 2 ^ (k - i) * x % 2 = 0 := by
        obtain ⟨j, hj⟩ : ∃ j, k - i = j + 1 := ⟨k - i - 1, by omega⟩
        have hsp : 2 ^ (k - i) * x = 2 * (2 ^ j * x) := by
          rw [hj, pow_succ]; ring
        rw [hsp]
        exact Nat.mul_mod_right 2 _
      rw [Nat.add_mod, hev, decide_eq_decide]
      omega
    simp [Nat.testBit_or, h1, h2]
  · have h1 : y.testBit i = false :=
      Nat.testBit_lt_two_pow (lt_of_lt_of_le hy (Nat.pow_le_pow_right (by norm_num) hik))
    have hpow : 2 ^ i = 2 ^ k * 2 ^ (i - k) := by
      rw [← pow_add]; congr 1; omega
    have h2 : (x * 2 ^ k + y).testBit i = x.testBit (i - k) := by
      rw [Nat.testBit_to_div_mod, Nat.testBit_to_div_mod, hpow,
        ← Nat.div_div_eq_div_mul]
      have hx : x * 2 ^ k = 2 ^ k * x := by ring
      rw [hx, Nat.mul_add_div (Nat.two_pow_pos k), Nat.div_eq_of_lt hy, Nat.add_zero]
    have h3 : (x <<< k).testBit i = x.testBit (i - k) := by
      simp [Nat.testBit_shiftLeft, hik]
    simp [Nat.testBit_or, h1, h2, h3]

/-- Masking then shifting the red channel agrees with shifting into
bits 15..11, for 8-bit inputs. -/
theorem mask_shift_red : ∀ r < 256, ((r &&& 0xF8) <<< 8) = ((r >>> 3) <<< 11) := by
  decide

/-- Masking then shifting the green channel agrees with shifting into
bits 10..5, for 8-bit inputs. -/
theorem mask_shift_green : ∀ g < 256, ((g &&& 0xFC) <<< 3) = ((g >>> 2) <<< 5) := by
  decide

/-- The two RGB565 field values below their widths, and the packed value
as plain base-2 arithmetic. -/
theorem rgb565v_fields (r g b : Nat) (hr : r < 256) (hg : g < 256) (hb : b < 256) :
    rgb565v r g b = (r >>> 3) * 2048 + (g >>> 2) * 32 + (b >>> 3) ∧
    rgb565v r g b = rgb565v_shift r g b ∧ rgb565v r g b < 65536 := by
  have hr3 : r >>> 3 < 32 := by rw [Nat.shiftRight_eq_div_pow]; omega
  have hg2 : g >>> 2 < 64 := by rw [Nat.shiftRight_eq_div_pow]; omega
  have hb3 : b >>> 3 < 32 := by rw [Nat.shiftRight_eq_div_pow]; omega
  have e1 : rgb565v r g b = rgb565v_shift r g b := by
    unfold rgb565v rgb565v_shift
    rw [mask_shift_red r hr, mask_shift_green g hg]
  have elow : ((g >>> 2) <<< 5) ||| (b >>> 3) = (g >>> 2) * 32 + (b >>> 3) := by
    have := shiftLeft_lor_eq_add (g >>> 2) (b >>> 3) 5 (by norm_num; omega)
    simpa using this
  have ehigh : ((r >>> 3) <<< 11) ||| ((g >>> 2) * 32 + (b >>> 3)) =
      (r >>> 3) * 2048 + ((g >>> 2) * 32 + (b >>> 3)) := by
    have := shiftLeft_lor_eq_add (r >>> 3) ((g >>> 2) * 32 + (b >>> 3)) 11
      (by norm_num; omega)
    simpa using this
  have e2 : rgb565v_shift r g b = (r >>> 3) * 2048 + (g >>> 2) * 32 + (b >>> 3) := by
    unfold rgb565v_shift
    rw [Nat.lor_assoc, elow, ehigh, Nat.add_assoc]
  refine ⟨by rw [e1, e2], e1, ?_⟩
  rw [e1, e2]
  omega

/-! ### Run scanner equations and invariants -/

/-- Dropping a prefix never lengthens a list. -/
theorem length_dropWhile_le {α : Type} (p : α → Bool) (l : List α) :
    (List.dropWhile p l).length ≤ l.length := by
  induction l with
  | nil => simp [List.dropWhile]
  | cons a l ihl =>
    by_cases h : p a
    · rw [List.dropWhile_cons_of_pos h]
      exact le_trans ihl (by simp)
    · rw [List.dropWhile_cons_of_neg (by simpa using h)]

/-- The first element surviving dropWhile fails the predicate. -/
theorem dropWhile_head_false {α : Type} (p : α → Bool) (l : List α) (q : α)
    (l' : List α) (h : List.dropWhile p l = q :: l') : p q = false := by
  induction l with
  | nil => simp [List.dropWhile] at h
  | cons a l ihl =>
    by_cases ha : p a
    · rw [List.dropWhile_cons_of_pos ha] at h
      exact ihl h
    · rw [List.dropWhile_cons_of_neg (by simpa using ha)] at h
      cases h
      simpa using ha

/-- One extra unit of fuel changes nothing once the fuel covers the list. -/
theorem rowRunsF_step : ∀ (fuel : Nat) (row : List Pixel) (x : Nat),
    row.length ≤ fuel → rowRunsF (fuel + 1) row x = rowRunsF fuel row x := by
  intro fuel
  induction fuel with
  | zero =>
    intro row x hrow
    have : row = [] := List.length_eq_zero.mp (Nat.le_zero.mp hrow)
    subst this
    rfl
  | succ fuel ihf =>
    intro row x hrow
    match row with
    | [] => rfl
    | p :: rest =>
      simp only [rowRunsF]
      by_cases h : isTransparent p
      · rw [if_pos h, if_pos h]
        exact ihf rest (x + 1) (by simpa using hrow)
      · rw [if_neg h, if_neg h]
        congr 1
        have hd : List.dropWhile (fun q => !(isTransparent q)) (p :: rest)
            = List.dropWhile (fun q => !(isTransparent q)) rest :=
          List.dropWhile_cons_of_pos (by simpa using h)
        apply ihf
        rw [hd]
        exact le_trans (length_dropWhile_le _ _) (by simpa using hrow)

/-- Any sufficient fuel computes rowRuns. -/
theorem rowRunsF_ge (fuel : Nat) (row : List Pixel) (x : Nat)
    (h : row.length ≤ fuel) : rowRunsF fuel row x = rowRuns row x := by
  obtain ⟨k, hk⟩ : ∃ k, fuel = row.length + k := ⟨fuel - row.length, by omega⟩
  subst hk
  clear h
  induction k with
  | zero => rfl
  | succ k ihk =>
    rw [show row.length + (k + 1) = (row.length + k) + 1 from rfl,
      rowRunsF_step (row.length + k) row x (by omega)]
    exact ihk

/-- rowRuns on the empty row. -/
theorem rowRuns_nil (x : Nat) : rowRuns [] x = [] := rfl

/-- rowRuns steps over a transparent pixel. -/
theorem rowRuns_cons_of_trans (p : Pixel) (rest : List Pixel) (x : Nat)
    (h : isTransparent p = true) :
    rowRuns (p :: rest) x = rowRuns rest (x + 1) := by
  show rowRunsF (rest.length + 1) (p :: rest) x = rowRuns rest (x + 1)
  simp only [rowRunsF, if_pos h]
  rfl

/-- rowRuns at a non-transparent pixel emits the maximal run there. -/
theorem rowRuns_cons_of_opq (p : Pixel) (rest : List Pixel) (x : Nat)
    (h : isTransparent p = false) :
    rowRuns (p :: rest) x =
      (x, (List.takeWhile (fun q => !(isTransparent q)) (p :: rest)).length) ::
        rowRuns (List.dropWhile (fun q => !(isTransparent q)) (p :: rest))
          (x + (List.takeWhile (fun q => !(isTransparent q)) (p :: rest)).length) := by
  show rowRunsF (rest.length + 1) (p :: rest) x = _
  simp only [rowRunsF, if_neg (by simp [h] : ¬ isTransparent p = true)]
  congr 1
  have hd : List.dropWhile (fun q => !(isTransparent q)) (p :: rest)
      = List.dropWhile (fun q => !(isTransparent q)) rest :=
    List.dropWhile_cons_of_pos (by simpa using h)
  apply rowRunsF_ge
  rw [hd]
  exact length_dropWhile_le _ _

/-- Core invariants of the run scanner, for a row whose head pixel sits
at absolute column x: the run list is short, every run starts at or
after x, has positive length and ends within the row, consecutive runs
are separated by at least one skipped column, and the runs cover exactly
the non-transparent columns. -/
theorem rowRuns_props : ∀ (N : Nat) (row : List Pixel), row.length ≤ N → ∀ x : Nat,
    ((rowRuns row x).length ≤ row.length) ∧
    (∀ r ∈ rowRuns row x, x ≤ r.1 ∧ 1 ≤ r.2 ∧ r.1 + r.2 ≤ x + row.length) ∧
    List.Chain' (fun a b : Nat × Nat => a.1 + a.2 < b.1) (rowRuns row x) ∧
    (∀ c : Nat, (∃ r ∈ rowRuns row x, r.1 ≤ c ∧ c < r.1 + r.2) ↔
      (x ≤ c ∧ c - x < row.length ∧ isTransparent (row.getD (c - x) defPix) = false)) := by
  intro N
  induction N with
  | zero =>
    intro row hrow x
    have hne : row = [] := List.length_eq_zero.mp (Nat.le_zero.mp hrow)
    subst hne
    refine ⟨by simp [rowRuns_nil], by simp [rowRuns_nil], by simp [rowRuns_nil], ?_⟩
    intro c
    simp [rowRuns_nil]
  | succ N ih =>
    intro row hrow x
    match row with
    | [] =>
      refine ⟨by simp [rowRuns_nil], by simp [rowRuns_nil], by simp [rowRuns_nil], ?_⟩
      intro c
      simp [rowRuns_nil]
    | p :: rest =>
      have hrest : rest.length ≤ N := by simpa using hrow
      by_cases h : isTransparent p
      · rw [rowRuns_cons_of_trans p rest x h]
        obtain ⟨ih1, ih2, ih3, ih4⟩ := ih rest hrest (x + 1)
        refine ⟨le_trans ih1 (by simp), ?_, ih3, ?_⟩
        · intro r hr
          obtain ⟨h1, h2, h3⟩ := ih2 r hr
          refine ⟨by omega, h2, by simp only [List.length_cons]; omega⟩
        · intro c
          rw [ih4 c]
          constructor
          · rintro ⟨hc1, hc2, hc3⟩
            refine ⟨by omega, by simp only [List.length_cons]; omega, ?_⟩
            have hcx : c - x = (c - (x + 1)) + 1 := by omega
            rw [hcx, List.getD_cons_succ]
            exact hc3
          · rintro ⟨hc1, hc2, hc3⟩
            rcases Nat.eq_or_lt_of_le hc1 with he | hlt
            · exfalso
              have hzero : c - x = 0 := by omega
              rw [hzero, List.getD_cons_zero] at hc3
              rw [h] at hc3
              simp at hc3
            · refine ⟨by omega, ?_, ?_⟩
              · simp only [List.length_cons] at hc2
                omega
              · have hcx : c - x = (c - (x + 1)) + 1 := by omega
                rw [hcx, List.getD_cons_succ] at hc3
                exact hc3
      · have h' : isTransparent p = false := by simpa using h
        rw [rowRuns_cons_of_opq p rest x h']
        have htd : List.takeWhile (fun q => !(isTransparent q)) (p :: rest) ++
            List.dropWhile (fun q => !(isTransparent q)) (p :: rest) = p :: rest :=
          List.takeWhile_append_dropWhile _ _
        set t := List.takeWhile (fun q => !(isTransparent q)) (p :: rest) with ht
        set d := List.dropWhile (fun q => !(isTransparent q)) (p :: rest) with hd
        have hmem_t : ∀ q ∈ t, isTransparent q = false := by
          intro q hq
          have := List.mem_takeWhile_imp hq
          simpa using this
        have hn1 : 1 ≤ t.length := by
          rw [ht, List.takeWhile_cons_of_pos (by simpa using h')]
          simp
        have hlen : t.length + d.length = rest.length + 1 := by
          have := congrArg List.length htd
          simpa using this
        have hdrest : d = List.dropWhile (fun q => !(isTransparent q)) rest := by
          rw [hd, List.dropWhile_cons_of_pos (by simpa using h')]
        have hdN : d.length ≤ N := by
          rw [hdrest]
          exact le_trans (length_dropWhile_le _ _) hrest
        obtain ⟨ih1, ih2, ih3, ih4⟩ := ih d hdN (x + t.length)
        have hstrict : ∀ r ∈ rowRuns d (x + t.length), x + t.length < r.1 := by
          match hd2 : d with
          | [] =>
            intro r hr
            rw [rowRuns_nil] at hr
            simp at hr
          | q :: d' =>
            have hq : isTransparent q = true := by
              have := dropWhile_head_false (fun q => !(isTransparent q)) (p :: rest) q d' hd.symm
              simpa using this
            intro r hr
            rw [rowRuns_cons_of_trans q d' _ hq] at hr
            have hd'N : d'.length ≤ N := by
              simp only [List.length_cons] at hdN
              omega
            obtain ⟨h1, _, _⟩ := (ih d' hd'N (x + t.length + 1)).2.1 r hr
            omega
        have hgetlt : ∀ i, i < t.length →
            isTransparent ((p :: rest).getD i defPix) = false := by
          intro i hi
          rw [← htd, List.getD_append _ _ _ i hi]
          apply hmem_t
          rw [List.getD_eq_getElem t defPix hi]
          exact List.getElem_mem hi
        have hgetge : ∀ i, t.length ≤ i →
            (p :: rest).getD i defPix = d.getD (i - t.length) defPix := by
          intro i hi
          rw [← htd, List.getD_append_right _ _ _ _ hi]
        constructor
        · simp only [List.length_cons]
          omega
        constructor
        · intro r hr
          rcases List.mem_cons.mp hr with he | hm
          · subst he
            refine ⟨le_refl x, hn1, ?_⟩
            simp only [List.length_cons]
            omega
          · obtain ⟨h1, h2, h3⟩ := ih2 r hm
            refine ⟨by omega, h2, ?_⟩
            simp only [List.length_cons]
            omega
        constructor
        · rw [List.chain'_cons']
          refine ⟨?_, ih3⟩
          intro y hy
          have := hstrict y (List.mem_of_mem_head? hy)
          simpa using this
        · intro c
          constructor
          · rintro ⟨r, hr, hc1, hc2⟩
            rcases List.mem_cons.mp hr with he | hm
            · subst he
              simp only at hc1 hc2
              refine ⟨hc1, ?_, ?_⟩
              · simp only [List.length_cons]
                omega
              · exact hgetlt (c - x) (by omega)
            · obtain ⟨hr1, hr2, hr3⟩ := ih2 r hm
              have hcov := (ih4 c).mp ⟨r, hm, hc1, hc2⟩
              obtain ⟨hc3, hc4, hc5⟩ := hcov
              refine ⟨by omega, ?_, ?_⟩
              · simp only [List.length_cons]
                omega
              · rw [hgetge (c - x) (by omega)]
                have : c - x - t.length = c - (x + t.length) := by omega
                rw [this]
                exact hc5
          · rintro ⟨hc1, hc2, hc3⟩
            simp only [List.length_cons] at hc2
            by_cases hcase : c - x < t.length
            · exact ⟨(x, t.length), List.mem_cons_self _ _, by simp; omega, by simp; omega⟩
            · have hc4 : isTransparent (d.getD (c - (x + t.length)) defPix) = false := by
                have := hc3
                rw [hgetge (c - x) (by omega)] at this
                have heq : c - x - t.length = c - (x + t.length) := by omega
                rw [heq] at this
                exact this
              obtain ⟨r, hm, hr1, hr2⟩ := (ih4 c).mpr ⟨by omega, by omega, hc4⟩
              exact ⟨r, List.mem_cons_of_mem _ hm, hr1, hr2⟩

/-- C1: for every image row, the runs emitted by the sprite run-length
encoder are maximal spans of non-transparent pixels: every run has
length at least 1, starts strictly increase left to right, consecutive
runs are separated by at least one non-covered column (so runs never
overlap and never split adjacent non-transparent pixels), and the runs'
columns are exactly the non-transparent columns of the row. -/
theorem claim_C1 (row : List Pixel) :
    (∀ r ∈ rowRuns row 0, 1 ≤ r.2) ∧
    List.Chain' (fun a b : Nat × Nat => a.1 < b.1) (rowRuns row 0) ∧
    List.Chain' (fun a b : Nat × Nat => a.1 + a.2 < b.1) (rowRuns row 0) ∧
    (∀ c : Nat, (∃ r ∈ rowRuns row 0, r.1 ≤ c ∧ c < r.1 + r.2) ↔
      (c < row.length ∧ isTransparent (row.getD c defPix) = false)) := by
  obtain ⟨h1, h2, h3, h4⟩ := rowRuns_props row.length row le_rfl 0
  refine ⟨fun r hr => (h2 r hr).2.1, ?_, h3, ?_⟩
  · exact List.Chain'.imp (fun a b hab => by omega) h3
  · intro c
    have := h4 c
    simpa using this

/-- Witness: the run scanner on a concrete three-pixel row with a
key-colored middle pixel, checked by evaluation and by claim_C1. -/
theorem claim_C1_witness :
    rowRuns [⟨255, 0, 0, 255⟩, ⟨139, 227, 8, 255⟩, ⟨0, 0, 255, 255⟩] 0 = [(0, 1), (2, 1)] ∧
    (∀ r ∈ rowRuns [⟨255, 0, 0, 255⟩, ⟨139, 227, 8, 255⟩, ⟨0, 0, 255, 255⟩] 0, 1 ≤ r.2) :=
  ⟨by decide, (claim_C1 [⟨255, 0, 0, 255⟩, ⟨139, 227, 8, 255⟩, ⟨0, 0, 255, 255⟩]).1⟩

/-- C2: for every 8-bit triple, the pixel codec produces exactly the
2-byte big-endian serialization of the 16-bit value holding R8 shifted
right by 3 in bits 15..11, G8 shifted right by 2 in bits 10..5 and B8
shifted right by 3 in bits 4..0, and the mask-based expression of
make_spans.py and the shift-based expression of image_converter.py
agree bit for bit. -/
theorem claim_C2 (r g b : Nat) (hr : r < 256) (hg : g < 256) (hb : b < 256) :
    rgb565v r g b = rgb565v_shift r g b ∧
    rgb565v r g b = (r >>> 3) * 2048 + (g >>> 2) * 32 + (b >>> 3) ∧
    rgb565v r g b < 65536 ∧
    rgb888_to_rgb565_be r g b = some [rgb565v r g b / 256, rgb565v r g b % 256] ∧
    pack16 (rgb565v_shift r g b) = some [rgb565v r g b / 256, rgb565v r g b % 256] := by
  obtain ⟨e2, e1, hlt⟩ := rgb565v_fields r g b hr hg hb
  refine ⟨e1, e2, hlt, ?_, ?_⟩
  · rw [rgb888_to_rgb565_be, pack16, if_pos hlt]
    rfl
  · rw [pack16, ← e1, if_pos hlt]
    rfl

/-- Witness: the codec at (255, 0, 0) yields the two bytes 248, 0, and
both implementations agree there. -/
theorem claim_C2_witness :
    rgb888_to_rgb565_be 255 0 0 = some [248, 0] ∧
    rgb565v 255 0 0 = rgb565v_shift 255 0 0 :=
  ⟨by decide, (claim_C2 255 0 0 (by decide) (by decide) (by decide)).1⟩

/-- C3: the sprite encoder treats a pixel as transparent iff its RGB
triple equals the key color (0x8B, 0xE3, 0x08) or its alpha is zero; in
particular the scanner drops a single-pixel row exactly under that
condition, and a fully opaque key-colored pixel is transparent. -/
theorem claim_C3 (p : Pixel) :
    (isTransparent p = true ↔ ((p.r = 139 ∧ p.g = 227 ∧ p.b = 8) ∨ p.a = 0)) ∧
    rowRuns [p] 0 = (if isTransparent p then [] else [(0, 1)]) ∧
    isTransparent ⟨139, 227, 8, 255⟩ = true ∧
    rowRuns [⟨139, 227, 8, 255⟩] 0 = [] := by
  refine ⟨?_, ?_, by decide, by decide⟩
  · simp [isTransparent, LIME_KEY, Prod.ext_iff]
  · by_cases h : isTransparent p
    · rw [if_pos h, rowRuns_cons_of_trans p [] 0 h, rowRuns_nil]
    · have h' : isTransparent p = false := by simpa using h
      rw [if_neg h, rowRuns_cons_of_opq p [] 0 h']
      have ht1 : List.takeWhile (fun q => !(isTransparent q)) [p] = [p] := by
        rw [List.takeWhile_cons_of_pos (by simpa using h')]
        rfl
      have hd1 : List.dropWhile (fun q => !(isTransparent q)) [p] = [] := by
        rw [List.dropWhile_cons_of_pos (by simpa using h')]
        rfl
      rw [ht1, hd1, rowRuns_nil]
      rfl

/-- Witness: transparency decisions on concrete pixels through claim_C3. -/
theorem claim_C3_witness :
    isTransparent ⟨0, 0, 0, 0⟩ = true ∧
    isTransparent ⟨139, 227, 8, 7⟩ = true ∧
    isTransparent ⟨140, 227, 8, 255⟩ = false ∧
    (isTransparent ⟨139, 227, 8, 255⟩ = true ↔
      ((139 = 139 ∧ 227 = 227 ∧ 8 = 8) ∨ 255 = 0)) :=
  ⟨by decide, by decide, by decide, (claim_C3 ⟨139, 227, 8, 255⟩).1⟩

/-- C6: the concrete 2-by-2 image whose first column is key-colored and
whose second column is red then green encodes to one (1,1) run per row,
with payloads 0xF800 (red) and 0x07E0 (green), after the 6-byte header;
the opaque-pixel count is 2. -/
theorem claim_C6 :
    rowRuns [⟨139, 227, 8, 255⟩, ⟨255, 0, 0, 255⟩] 0 = [(1, 1)] ∧
    rowRuns [⟨139, 227, 8, 255⟩, ⟨0, 255, 0, 255⟩] 0 = [(1, 1)] ∧
    rgb565v 255 0 0 = 0xF800 ∧
    rgb565v 0 255 0 = 0x07E0 ∧
    spriteEncode ⟨2, [[⟨139, 227, 8, 255⟩, ⟨255, 0, 0, 255⟩],
        [⟨139, 227, 8, 255⟩, ⟨0, 255, 0, 255⟩]]⟩ =
      some ([0, 2, 0, 2, 143, 1,
             0, 1, 0, 1, 0, 1, 248, 0,
             0, 1, 0, 1, 0, 1, 7, 224], 2) := by
  decide

/-- Sequencing a map whose every chunk is produced yields the flattened
total map. -/
theorem seqBytes_map_some {α : Type} (l : List α) (f : α → Option (List Nat))
    (g : α → List Nat) (h : ∀ a ∈ l, f a = some (g a)) :
    seqBytes (l.map f) = some ((l.map g).flatten) := by
  induction l with
  | nil => rfl
  | cons a l ihl =>
    simp only [List.map_cons]
    show (match f a, seqBytes (l.map f) with
      | some b, some bs => some (b ++ bs)
      | _, _ => none) = _
    rw [h a (List.mem_cons_self a l), ihl (fun b hb => h b (List.mem_cons_of_mem a hb))]
    simp

/-- Summing a constant over a list. -/
theorem sum_map_const_nat {α : Type} (l : List α) (k : Nat) :
    (l.map (fun _ => k)).sum = l.length * k := by
  induction l with
  | nil => simp
  | cons a l ihl => simp [ihl, Nat.succ_mul, Nat.add_comm]

/-- C4: on any image whose rows all have the declared width and whose
channels are 8-bit, both dense full-frame encoders (make_spans.py
full_raw and image_converter.py to_rgb565_be_bytes) succeed, produce the
identical row-major concatenation of per-pixel 2-byte codec outputs, and
that buffer has exactly width * height * 2 bytes. -/
theorem claim_C4 (img : Image)
    (hwf : ∀ row ∈ img.rows, row.length = img.w)
    (h8 : ∀ row ∈ img.rows, ∀ p ∈ row, p.r < 256 ∧ p.g < 256 ∧ p.b < 256) :
    full_raw img = some (denseBytes img) ∧
    to_rgb565_be_bytes img = some (denseBytes img) ∧
    (denseBytes img).length = img.w * img.rows.length * 2 := by
  have hpix : ∀ row ∈ img.rows, ∀ p ∈ row,
      pixBytes p = some (be16u (rgb565v p.r p.g p.b)) := by
    intro row hrow p hp
    obtain ⟨h1, h2, h3⟩ := h8 row hrow p hp
    have hlt := (rgb565v_fields p.r p.g p.b h1 h2 h3).2.2
    rw [pixBytes, rgb888_to_rgb565_be, pack16, if_pos hlt]
  have hpix2 : ∀ row ∈ img.rows, ∀ p ∈ row,
      pack16 (rgb565v_shift p.r p.g p.b) = some (be16u (rgb565v p.r p.g p.b)) := by
    intro row hrow p hp
    obtain ⟨h1, h2, h3⟩ := h8 row hrow p hp
    obtain ⟨hf, he, hlt⟩ := rgb565v_fields p.r p.g p.b h1 h2 h3
    rw [← he, pack16, if_pos hlt]
  refine ⟨?_, ?_, ?_⟩
  · rw [full_raw, denseBytes]
    apply seqBytes_map_some
    intro row hrow
    exact seqBytes_map_some row _ _ (hpix row hrow)
  · rw [to_rgb565_be_bytes, denseBytes]
    apply seqBytes_map_some
    intro row hrow
    exact seqBytes_map_some row _ _ (hpix2 row hrow)
  · rw [denseBytes, List.length_flatten, List.map_map]
    have hrowlen : (img.rows.map (List.length ∘ fun row =>
        (row.map (fun p => be16u (rgb565v p.r p.g p.b))).flatten)) =
        img.rows.map (fun _ => img.w * 2) := by
      apply List.map_congr_left
      intro row hrow
      simp only [Function.comp_apply]
      rw [List.length_flatten, List.map_map]
      have hconst : (row.map (List.length ∘ fun p => be16u (rgb565v p.r p.g p.b))) =
          row.map (fun _ => 2) := by
        apply List.map_congr_left
        intro p hp
        rfl
      rw [hconst, sum_map_const_nat, hwf row hrow]
    rw [hrowlen, sum_map_const_nat]
    ring

/-- Witness: both dense encoders on a concrete 1-by-1 image, through
claim_C4, with the length fact evaluated. -/
theorem claim_C4_witness :
    full_raw ⟨1, [[⟨1, 2, 3, 255⟩]]⟩ = some (denseBytes ⟨1, [[⟨1, 2, 3, 255⟩]]⟩) ∧
    denseBytes ⟨1, [[⟨1, 2, 3, 255⟩]]⟩ = [0, 0] ∧
    (denseBytes ⟨1, [[⟨1, 2, 3, 255⟩]]⟩).length = 1 * 1 * 2 :=
  ⟨(claim_C4 ⟨1, [[⟨1, 2, 3, 255⟩]]⟩ (by decide) (by decide)).1, by decide,
    (claim_C4 ⟨1, [[⟨1, 2, 3, 255⟩]]⟩ (by decide) (by decide)).2.2⟩

/-- A row of transparent pixels yields no runs. -/
theorem rowRuns_all_trans (row : List Pixel)
    (h : ∀ p ∈ row, isTransparent p = true) : ∀ x, rowRuns row x = [] := by
  induction row with
  | nil => intro x; rfl
  | cons p rest ihl =>
    intro x
    rw [rowRuns_cons_of_trans p rest x (h p (List.mem_cons_self p rest))]
    exact ihl (fun q hq => h q (List.mem_cons_of_mem p hq)) (x + 1)

/-- A row of transparent pixels encodes as the run count 0 alone. -/
theorem encodeRow_all_trans (row : List Pixel)
    (h : ∀ p ∈ row, isTransparent p = true) : encodeRow row = some [0, 0] := by
  have hr := rowRuns_all_trans row h 0
  show (match pack16 (rowRuns row 0).length,
      seqBytes ((rowRuns row 0).map (encodeRun row)) with
    | some cnt, some body => some (cnt ++ body)
    | _, _ => none) = _
  rw [hr]
  rfl

/-- Mapping a constant gives a replicate. -/
theorem map_const_replicate {α : Type} (l : List α) (b : List Nat) :
    l.map (fun _ => b) = List.replicate l.length b := by
  induction l with
  | nil => rfl
  | cons a l ihl => simp [ihl, List.replicate]

/-- C5 counterexample: the claim quantifies over every all-transparent
image, but on an all-key-color image of width 65536 the encoder fails in
the 16-bit header packing and produces no buffer at all, instead of the
claimed 6 + 2 * h bytes. -/
theorem claim_C5_counterexample :
    isTransparent ⟨139, 227, 8, 255⟩ = true ∧
    spriteEncode ⟨65536, [List.replicate 65536 ⟨139, 227, 8, 255⟩]⟩ = none :=
  ⟨by decide, rfl⟩

/-- C5 (amended): for every all-transparent image whose width and height
fit in 16 bits, the sprite encoder emits exactly the 6-byte header
followed by one zero 16-bit run count per row — 6 + 2 * h bytes in all —
and reports 0 opaque pixels. -/
theorem claim_C5 (img : Image)
    (htr : ∀ row ∈ img.rows, ∀ p ∈ row, isTransparent p = true)
    (hw : img.w < 65536) (hh : img.rows.length < 65536) :
    spriteEncode img =
      some (be16u img.w ++ be16u img.rows.length ++ [143, 1] ++
        (List.replicate img.rows.length ([0, 0] : List Nat)).flatten, 0) ∧
    (be16u img.w ++ be16u img.rows.length ++ [143, 1] ++
        (List.replicate img.rows.length ([0, 0] : List Nat)).flatten).length =
      6 + 2 * img.rows.length := by
  have h1 : pack16 img.w = some (be16u img.w) := by rw [pack16, if_pos hw]
  have h2 : pack16 img.rows.length = some (be16u img.rows.length) := by
    rw [pack16, if_pos hh]
  have hk : pack16 key565 = some [143, 1] := by decide
  have hbody : seqBytes (img.rows.map encodeRow) =
      some ((img.rows.map (fun _ => ([0, 0] : List Nat))).flatten) :=
    seqBytes_map_some img.rows encodeRow (fun _ => [0, 0])
      (fun row hrow => encodeRow_all_trans row (htr row hrow))
  rw [map_const_replicate] at hbody
  have hcount : spritePixelsTotal img = 0 := by
    rw [spritePixelsTotal]
    apply List.sum_eq_zero
    intro n hn
    rw [List.mem_map] at hn
    obtain ⟨row, hrow, hnn⟩ := hn
    rw [rowRuns_all_trans row (htr row hrow) 0] at hnn
    simpa using hnn.symm
  constructor
  · show (match pack16 img.w, pack16 img.rows.length, pack16 key565,
        seqBytes (img.rows.map encodeRow) with
      | some bw, some bh, some bk, some body =>
        some (bw ++ bh ++ bk ++ body, spritePixelsTotal img)
      | _, _, _, _ => none) = _
    rw [h1, h2, hk, hbody, hcount]
  · simp [be16u, List.length_flatten, List.map_replicate, List.sum_replicate,
      smul_eq_mul]
    omega

/-- Witness: the amended C5 on a concrete 1-by-1 all-key image. -/
theorem claim_C5_witness :
    spriteEncode ⟨1, [[⟨139, 227, 8, 255⟩]]⟩ =
      some (be16u 1 ++ be16u 1 ++ [143, 1] ++
        (List.replicate 1 ([0, 0] : List Nat)).flatten, 0) ∧
    (be16u 1 ++ be16u 1 ++ [143, 1] ++
        (List.replicate 1 ([0, 0] : List Nat)).flatten).length = 6 + 2 * 1 :=
  claim_C5 ⟨1, [[⟨139, 227, 8, 255⟩]]⟩ (by decide) (by decide) (by decide)

/-- Sequencing succeeds once every chunk is produced. -/
theorem seqBytes_some_of_forall (l : List (Option (List Nat)))
    (h : ∀ o ∈ l, ∃ b, o = some b) : ∃ bs, seqBytes l = some bs := by
  induction l with
  | nil => exact ⟨[], rfl⟩
  | cons o os ihl =>
    obtain ⟨b, hb⟩ := h o (List.mem_cons_self o os)
    obtain ⟨bs, hbs⟩ := ihl (fun o' ho' => h o' (List.mem_cons_of_mem o ho'))
    refine ⟨b ++ bs, ?_⟩
    show (match o, seqBytes os with
      | some b, some bs => some (b ++ bs)
      | _, _ => none) = _
    rw [hb, hbs]

/-- Every pixel read off a row of 8-bit pixels (or the default pixel)
has 8-bit channels. -/
theorem getD_channels_lt (row : List Pixel)
    (h8 : ∀ p ∈ row, p.r < 256 ∧ p.g < 256 ∧ p.b < 256) (i : Nat) :
    (row.getD i defPix).r < 256 ∧ (row.getD i defPix).g < 256 ∧
      (row.getD i defPix).b < 256 := by
  by_cases hi : i < row.length
  · rw [List.getD_eq_getElem row defPix hi]
    exact h8 row[i] (List.getElem_mem hi)
  · rw [List.getD_eq_default row defPix (by omega)]
    refine ⟨by decide, by decide, by decide⟩

/-- A row whose pixels are 8-bit always run-length encodes, with the run
count bounded by the row length. -/
theorem encodeRow_some (row : List Pixel)
    (h8 : ∀ p ∈ row, p.r < 256 ∧ p.g < 256 ∧ p.b < 256)
    (hw : row.length < 65536) : ∃ bs, encodeRow row = some bs := by
  obtain ⟨hlen, hbound, hchain, hcov⟩ := rowRuns_props row.length row le_rfl 0
  have hcnt : pack16 (rowRuns row 0).length = some (be16u (rowRuns row 0).length) := by
    rw [pack16, if_pos (by omega)]
  have hrun : ∀ r ∈ rowRuns row 0, ∃ bs, encodeRun row r = some bs := by
    intro r hr
    obtain ⟨hr1, hr2, hr3⟩ := hbound r hr
    have hs : pack16 r.1 = some (be16u r.1) := by rw [pack16, if_pos (by omega)]
    have hl : pack16 r.2 = some (be16u r.2) := by rw [pack16, if_pos (by omega)]
    obtain ⟨pl, hpl⟩ : ∃ pl, runPayload row r.1 r.2 = some pl := by
      apply seqBytes_some_of_forall
      intro o ho
      rw [List.mem_map] at ho
      obtain ⟨i, hi, rfl⟩ := ho
      obtain ⟨c1, c2, c3⟩ := getD_channels_lt row h8 (r.1 + i)
      have hlt := (rgb565v_fields _ _ _ c1 c2 c3).2.2
      refine ⟨be16u (rgb565v (row.getD (r.1 + i) defPix).r
        (row.getD (r.1 + i) defPix).g (row.getD (r.1 + i) defPix).b), ?_⟩
      rw [pixBytes, rgb888_to_rgb565_be, pack16, if_pos hlt]
    refine ⟨be16u r.1 ++ be16u r.2 ++ pl, ?_⟩
    show (match pack16 r.1, pack16 r.2, runPayload row r.1 r.2 with
      | some s, some l, some pl => some (s ++ l ++ pl)
      | _, _, _ => none) = _
    rw [hs, hl, hpl]
  obtain ⟨body, hbody⟩ : ∃ bs, seqBytes ((rowRuns row 0).map (encodeRun row)) = some bs := by
    apply seqBytes_some_of_forall
    intro o ho
    rw [List.mem_map] at ho
    obtain ⟨r, hr, rfl⟩ := ho
    exact hrun r hr
  refine ⟨be16u (rowRuns row 0).length ++ body, ?_⟩
  show (match pack16 (rowRuns row 0).length,
      seqBytes ((rowRuns row 0).map (encodeRun row)) with
    | some cnt, some body => some (cnt ++ body)
    | _, _ => none) = _
  rw [hcnt, hbody]

/-- C10: an image whose width or height exceeds 65535 makes the sprite
encoder fail at the 16-bit header packing (no truncated or wrapped
output); when both fit in 16 bits every 16-bit field of the format (the
header fields, each per-row run count and each run's start and length)
is in range, so encoding always succeeds. -/
theorem claim_C10 (img : Image) :
    ((65536 ≤ img.w ∨ 65536 ≤ img.rows.length) → spriteEncode img = none) ∧
    ((∀ row ∈ img.rows, row.length = img.w) →
      (∀ row ∈ img.rows, ∀ p ∈ row, p.r < 256 ∧ p.g < 256 ∧ p.b < 256) →
      img.w < 65536 → img.rows.length < 65536 →
      (∀ row ∈ img.rows, (rowRuns row 0).length ≤ img.w ∧
        ∀ r ∈ rowRuns row 0, r.1 + r.2 ≤ img.w ∧ 1 ≤ r.2) ∧
      ∃ out, spriteEncode img = some out) := by
  constructor
  · intro hbig
    by_cases hw : 65536 ≤ img.w
    · have h1 : pack16 img.w = none := by rw [pack16, if_neg (by omega)]
      show (match pack16 img.w, pack16 img.rows.length, pack16 key565,
          seqBytes (img.rows.map encodeRow) with
        | some bw, some bh, some bk, some body =>
          some (bw ++ bh ++ bk ++ body, spritePixelsTotal img)
        | _, _, _, _ => none) = none
      rw [h1]
    · have hh : 65536 ≤ img.rows.length := by
        rcases hbig with h | h
        · omega
        · exact h
      have h1 : pack16 img.w = some (be16u img.w) := by rw [pack16, if_pos (by omega)]
      have h2 : pack16 img.rows.length = none := by rw [pack16, if_neg (by omega)]
      show (match pack16 img.w, pack16 img.rows.length, pack16 key565,
          seqBytes (img.rows.map encodeRow) with
        | some bw, some bh, some bk, some body =>
          some (bw ++ bh ++ bk ++ body, spritePixelsTotal img)
        | _, _, _, _ => none) = none
      rw [h1, h2]
  · intro hwf h8 hw hh
    constructor
    · intro row hrow
      obtain ⟨hlen, hbound, hchain, hcov⟩ := rowRuns_props row.length row le_rfl 0
      refine ⟨by rw [← hwf row hrow]; exact hlen, ?_⟩
      intro r hr
      obtain ⟨h1, h2, h3⟩ := hbound r hr
      rw [hwf row hrow] at h3
      exact ⟨by omega, h2⟩
    · have h1 : pack16 img.w = some (be16u img.w) := by rw [pack16, if_pos hw]
      have h2 : pack16 img.rows.length = some (be16u img.rows.length) := by
        rw [pack16, if_pos hh]
      have hk : pack16 key565 = some [143, 1] := by decide
      obtain ⟨body, hbody⟩ : ∃ bs, seqBytes (img.rows.map encodeRow) = some bs := by
        apply seqBytes_some_of_forall
        intro o ho
        rw [List.mem_map] at ho
        obtain ⟨row, hrow, rfl⟩ := ho
        exact encodeRow_some row (h8 row hrow) (by rw [hwf row hrow]; omega)
      refine ⟨(be16u img.w ++ be16u img.rows.length ++ [143, 1] ++ body,
        spritePixelsTotal img), ?_⟩
      show (match pack16 img.w, pack16 img.rows.length, pack16 key565,
          seqBytes (img.rows.map encodeRow) with
        | some bw, some bh, some bk, some body =>
          some (bw ++ bh ++ bk ++ body, spritePixelsTotal img)
        | _, _, _, _ => none) = _
      rw [h1, h2, hk, hbody]

/-- Witness: the oversize failure on a concrete 65536-wide image and the
in-range success on a concrete 1-by-1 image, both through claim_C10. -/
theorem claim_C10_witness :
    spriteEncode ⟨70000, [[]]⟩ = none ∧
    (∃ out, spriteEncode ⟨1, [[⟨255, 0, 0, 255⟩]]⟩ = some out) :=
  ⟨(claim_C10 ⟨70000, [[]]⟩).1 (by left; decide),
    ((claim_C10 ⟨1, [[⟨255, 0, 0, 255⟩]]⟩).2 (by decide) (by decide)
      (by decide) (by decide)).2⟩

/-- C7: a compression level outside 0..9 makes pack_assets.py main stop
with the configuration error before any file is processed or written —
for every possible file list — while every level inside 0..9 passes the
check. -/
theorem claim_C7 (level : Int) :
    ((level < 0 ∨ 9 < level) →
      ∀ (zc : List Nat → Int → List Nat) (force overwrite : Bool)
        (files : List RawFile),
        pack_main zc level force overwrite files = .configError ∧
        writtenOutputs (pack_main zc level force overwrite files) = []) ∧
    (0 ≤ level → level ≤ 9 →
      ∀ (zc : List Nat → Int → List Nat) (force overwrite : Bool)
        (files : List RawFile),
        pack_main zc level force overwrite files ≠ .configError) := by
  constructor
  · intro hbad zc force overwrite files
    rw [pack_main, if_pos hbad]
    exact ⟨rfl, rfl⟩
  · intro h0 h9 zc force overwrite files
    rw [pack_main, if_neg (by omega)]
    by_cases hf : files.length = 0
    · rw [if_pos hf]
      exact fun hcon => MainResult.noConfusion hcon
    · rw [if_neg hf]
      exact fun hcon => MainResult.noConfusion hcon

/-- Witness: level 10 is rejected before any file, level 9 passes. -/
theorem claim_C7_witness :
    pack_main (fun d _ => d) 10 false false [] = .configError ∧
    pack_main (fun d _ => d) 9 false false [] ≠ .configError :=
  ⟨((claim_C7 10).1 (by decide) (fun d _ => d) false false []).1,
    (claim_C7 9).2 (by decide) (by decide) (fun d _ => d) false false []⟩

/-- C8 counterexample: on the mismatched file foo_4x4_rgb565_be.raw of
31 bytes with force set, the claim promises compression, but when the
compressed output already exists and overwrite is not set the stage
skips it instead of compressing. -/
theorem claim_C8_counterexample :
    size_from_name ("foo_4x4_rgb565_be.raw".data) = some (4, 4) ∧
    (List.replicate 31 (0 : Nat)).length ≠ 4 * 4 * 2 ∧
    compress_one (fun d _ => d) ("foo_4x4_rgb565_be.raw".data)
      (List.replicate 31 (0 : Nat)) true 9 true false = (.skipExists, true) :=
  ⟨by decide, by decide, by decide⟩

/-- C8 (amended): a raw file whose name matches the pattern but whose
byte length differs from W * H * 2 is rejected with the size-mismatch
error and nothing is written, unless force is passed, in which case the
size check is bypassed and the file is compressed — provided its
compressed output does not already exist without the overwrite flag
(otherwise it is counted as an already-exists skip). -/
theorem claim_C8 (zc : List Nat → Int → List Nat) (name : List Char)
    (data : List Nat) (outExists : Bool) (level : Int) (w h : Nat)
    (hname : size_from_name name = some (w, h))
    (hmis : data.length ≠ w * h * 2) :
    (∀ overwrite : Bool,
      compress_one zc name data outExists level false overwrite =
        (.sizeError, false)) ∧
    (∀ overwrite : Bool, (outExists = false ∨ overwrite = true) →
      compress_one zc name data outExists level true overwrite =
        (.wrote (zc data level), true)) := by
  constructor
  · intro overwrite
    show (match size_from_name name with
      | none => ((CompressResult.skippedBadName, false) : CompressResult × Bool)
      | some (w, h) =>
        if data.length != w * h * 2 && !false then (.sizeError, false)
        else if outExists && !overwrite then (.skipExists, true)
        else (.wrote (zc data level), true)) = _
    rw [hname]
    simp [hmis]
  · intro overwrite hcase
    show (match size_from_name name with
      | none => ((CompressResult.skippedBadName, false) : CompressResult × Bool)
      | some (w, h) =>
        if data.length != w * h * 2 && !true then (.sizeError, false)
        else if outExists && !overwrite then (.skipExists, true)
        else (.wrote (zc data level), true)) = _
    rw [hname]
    rcases hcase with he | ho
    · subst he
      simp
    · subst ho
      simp

/-- Witness: the same 31-byte file is rejected without force and
compressed with force when no output is in the way, through claim_C8. -/
theorem claim_C8_witness :
    compress_one (fun d _ => d) ("foo_4x4_rgb565_be.raw".data)
      (List.replicate 31 (0 : Nat)) false 9 false false = (.sizeError, false) ∧
    compress_one (fun d _ => d) ("foo_4x4_rgb565_be.raw".data)
      (List.replicate 31 (0 : Nat)) false 9 true false =
      (.wrote (List.replicate 31 (0 : Nat)), true) :=
  ⟨(claim_C8 (fun d _ => d) ("foo_4x4_rgb565_be.raw".data)
      (List.replicate 31 (0 : Nat)) false 9 4 4 (by decide) (by decide)).1 false,
    (claim_C8 (fun d _ => d) ("foo_4x4_rgb565_be.raw".data)
      (List.replicate 31 (0 : Nat)) false 9 4 4 (by decide) (by decide)).2
      false (Or.inl rfl)⟩

/-- C9 counterexample: a batch holding one .raw file whose name does not
match the pattern is printed as a skip but returns failure, so the batch
exits 1 — against the claim that a bad-name skip is not treated as an
error by the all-success exit status. -/
theorem claim_C9_counterexample :
    size_from_name ("notes.raw".data) = none ∧
    pack_main (fun d _ => d) 9 false false [⟨"notes.raw".data, [], false⟩] =
      .batch [(.skippedBadName, false)] ∧
    exitCode (pack_main (fun d _ => d) 9 false false
      [⟨"notes.raw".data, [], false⟩]) = 1 :=
  ⟨by decide, by decide, by decide⟩

/-- C9 (amended): a .raw file whose name does not match the pattern is
skipped with a diagnostic but returns failure, so it counts against the
batch exit status; the batch exits 0 iff every file returned success;
and a pre-existing compressed output without overwrite is reported as
already existing and counted as a successful no-op. -/
theorem claim_C9 (zc : List Nat → Int → List Nat) :
    (∀ (name : List Char) (data : List Nat) (outExists : Bool) (level : Int)
      (force overwrite : Bool), size_from_name name = none →
      compress_one zc name data outExists level force overwrite =
        (.skippedBadName, false)) ∧
    (∀ (level : Int) (force overwrite : Bool) (files : List RawFile),
      ¬(level < 0 ∨ 9 < level) → files.length ≠ 0 →
      (exitCode (pack_main zc level force overwrite files) = 0 ↔
        ∀ f ∈ files,
          (compress_one zc f.name f.data f.outExists level force overwrite).2 = true)) ∧
    (∀ (name : List Char) (data : List Nat) (level : Int) (force : Bool)
      (w h : Nat),
      size_from_name name = some (w, h) →
      (data.length = w * h * 2 ∨ force = true) →
      compress_one zc name data true level force false = (.skipExists, true)) := by
  refine ⟨?_, ?_, ?_⟩
  · intro name data outExists level force overwrite hnone
    show (match size_from_name name with
      | none => ((CompressResult.skippedBadName, false) : CompressResult × Bool)
      | some (w, h) =>
        if data.length != w * h * 2 && !force then (.sizeError, false)
        else if outExists && !overwrite then (.skipExists, true)
        else (.wrote (zc data level), true)) = _
    rw [hnone]
  · intro level force overwrite files hlev hfile
    have hb : pack_main zc level force overwrite files =
        .batch (files.map fun f =>
          compress_one zc f.name f.data f.outExists level force overwrite) := by
      rw [pack_main, if_neg hlev, if_neg hfile]
    rw [hb]
    show (if (files.map fun f =>
        compress_one zc f.name f.data f.outExists level force overwrite).all
          (fun r => r.2) then 0 else 1) = 0 ↔ _
    by_cases hall : (files.map fun f =>
        compress_one zc f.name f.data f.outExists level force overwrite).all
          (fun r => r.2) = true
    · rw [if_pos hall]
      simp only [List.all_eq_true, List.mem_map] at hall
      exact iff_of_true rfl (fun f hf => hall _ ⟨f, hf, rfl⟩)
    · rw [if_neg hall]
      apply iff_of_false (by omega)
      intro hcon
      apply hall
      simp only [List.all_eq_true, List.mem_map]
      rintro r ⟨f, hf, rfl⟩
      exact hcon f hf
  · intro name data level force w h hname hok
    show (match size_from_name name with
      | none => ((CompressResult.skippedBadName, false) : CompressResult × Bool)
      | some (w, h) =>
        if data.length != w * h * 2 && !force then (.sizeError, false)
        else if true && !false then (.skipExists, true)
        else (.wrote (zc data level), true)) = _
    rw [hname]
    rcases hok with he | hf
    · simp [he]
    · subst hf
      simp

/-- Witness: a bad-name skip returning failure and an already-exists
skip returning success, through claim_C9. -/
theorem claim_C9_witness :
    compress_one (fun d _ => d) ("notes.raw".data) [] false 9 false false =
      (.skippedBadName, false) ∧
    compress_one (fun d _ => d) ("a_2x2_rgb565_be.raw".data)
      (List.replicate 8 (0 : Nat)) true 9 false false = (.skipExists, true) :=
  ⟨(claim_C9 (fun d _ => d)).1 ("notes.raw".data) [] false 9 false false (by decide),
    (claim_C9 (fun d _ => d)).2.2 ("a_2x2_rgb565_be.raw".data)
      (List.replicate 8 (0 : Nat)) 9 false 2 2 (by decide)
      (Or.inl (by decide))⟩
